import Mathlib

/-!
Verification of the protosearch plugin core (crates/protosearch-plugin) as a
shallow embedding in Lean.  Pure Rust functions become Lean functions; the
descriptor graph becomes an inductive tree; protobuf wire decoding of the
custom options (an external concern handled by the protobuf library) is
represented by carrying the already-decoded option values on the descriptors,
and serde_json parsing of target-override text is represented by carrying the
parse result of the external parser.
-/

/-- JSON values, mirroring serde_json::Value.  Numbers are restricted to
integers: no claim depends on floating-point JSON numbers. -/
inductive Json where
  | null : Json
  | bool (b : Bool) : Json
  | num (n : Int) : Json
  | str (s : String) : Json
  | arr (xs : List Json) : Json
  | obj (fields : List (String × Json)) : Json

/-- A point in a source file; line and column start from 1 (span.rs `Point`). -/
structure Point where
  line : Nat
  column : Nat
deriving Repr, DecidableEq

/-- A span of text between two points in a source file (span.rs `Span`). -/
structure Span where
  start : Point
  stop : Point
deriving Repr, DecidableEq

/-- `x as u32` for a Rust i32 value modelled as Int. -/
def toU32 (i : Int) : Nat :=
  (i % 4294967296).toNat

/-- u32 addition (wrapping, as in release-mode Rust). -/
def u32add (a b : Nat) : Nat :=
  (a + b) % 4294967296

/-- Span.from_proto (span.rs lines 51-65): a recorded protobuf span has three
or four elements; three elements means start line and end line coincide.
Recorded positions are 0-based, the returned points are 1-based. -/
def Span.from_proto (span : List Int) : Option Span :=
  match span with
  | [l1, c1, c2] =>
      some ⟨⟨u32add (toU32 l1) 1, u32add (toU32 c1) 1⟩,
            ⟨u32add (toU32 l1) 1, u32add (toU32 c2) 1⟩⟩
  | [l1, c1, l2, c2] =>
      some ⟨⟨u32add (toU32 l1) 1, u32add (toU32 c1) 1⟩,
            ⟨u32add (toU32 l2) 1, u32add (toU32 c2) 1⟩⟩
  | _ => none

/-- A field inside a FileDescriptorProto-level message (name and declared
number are all span reconstruction consults). -/
structure FieldProto where
  name : String
  number : Int
deriving Repr, DecidableEq

/-- A message of a FileDescriptorProto: full name, fields, nested messages. -/
inductive MsgProto where
  | mk (fullName : String) (fields : List FieldProto) (nested : List MsgProto)

def MsgProto.fullName : MsgProto → String
  | .mk n _ _ => n

def MsgProto.fields : MsgProto → List FieldProto
  | .mk _ fs _ => fs

def MsgProto.nested : MsgProto → List MsgProto
  | .mk _ _ ns => ns

/-- One SourceCodeInfo.Location record: a path and a recorded span. -/
structure LocationRec where
  path : List Int
  span : List Int
deriving Repr, DecidableEq

/-- The parts of a FileDescriptorProto used by span reconstruction. -/
structure FileProto where
  messages : List MsgProto
  sourceCodeInfo : Option (List LocationRec)

/-- message_path (span.rs lines 108-129).  The Rust code walks the enclosing
chain via descriptor back-references; here the chain of enclosing messages is
passed explicitly, innermost parent first.  At each level the sibling index is
found by full-name search, which can fail (synthesized descriptors). -/
def message_path (file : FileProto) : List MsgProto → MsgProto → Option (List Int)
  | [], m =>
      (file.messages.findIdx? (fun x => x.fullName == m.fullName)).map
        (fun idx => [4, (idx : Int)])
  | parent :: rest, m => do
      let p ← message_path file rest parent
      let idx ← parent.nested.findIdx? (fun x => x.fullName == m.fullName)
      pure (p ++ [3, (idx : Int)])

/-- Span.from_field (span.rs lines 31-44): rebuild the SourceCodeInfo path of
the field (message path, then field-list number 2 and the sibling index found
by field-number search), look it up in the recorded table, and convert.  Every
failure returns none. -/
def Span.from_field (file : FileProto) (chain : List MsgProto) (m : MsgProto)
    (f : FieldProto) : Option Span := do
  let p ← message_path file chain m
  let idx ← m.fields.findIdx? (fun g => g.number == f.number)
  let path := p ++ [2, (idx : Int)]
  let sci ← file.sourceCodeInfo
  let loc ← sci.find? (fun l => l.path == path)
  Span.from_proto loc.span

/-- index_prefixes sub-message of the FieldMapping options (proto schema is
outside src; fields min_chars and max_chars are the ones validator.rs reads).
Presence-tracked i32 fields become Option Int. -/
structure IndexPrefixes where
  min_chars : Option Int
  max_chars : Option Int
deriving Repr, DecidableEq, Inhabited

/-- The FieldMapping custom-option message: an optional explicit mapping type
(presence-tracked, has_type in Rust) and the parameters the validator checks.
Other parameters of the real message do not influence any verified claim. -/
structure FieldMapping where
  type : Option String
  ignore_above : Option Int
  position_increment_gap : Option Int
  index_prefixes : Option IndexPrefixes
deriving Repr, DecidableEq, Inhabited

/-- One (label, json-text) target override of a field annotation.  The JSON
text itself is fed to the external serde_json parser; the embedding carries
the parser's outcome: error for unparseable text, ok v for a parse to v. -/
structure Target where
  label : String
  json : Except Unit Json

/-- The decoded per-field custom options (proto::Field): an optional output
name override (presence-tracked), an optional FieldMapping, and the declared
target overrides. -/
structure FieldOptions where
  name : Option String
  mapping : Option FieldMapping
  target : List Target

/-- Message-level index options (proto::Index), abstracted as the key/value
list its generic JSON encoding produces; its key set comes from a fixed proto
schema. -/
abbrev IndexOpts := List (String × Json)

mutual
/-- A runtime value shape (protobuf::reflect::RuntimeType). -/
inductive RuntimeType where
  | i32 : RuntimeType
  | i64 : RuntimeType
  | u32 : RuntimeType
  | u64 : RuntimeType
  | f32 : RuntimeType
  | f64 : RuntimeType
  | bool : RuntimeType
  | string : RuntimeType
  | vecU8 : RuntimeType
  | message (m : MessageDescriptor) : RuntimeType
  | enum (name : String) : RuntimeType

/-- A field's runtime shape (protobuf::reflect::RuntimeFieldType). -/
inductive RuntimeFieldType where
  | singular (t : RuntimeType) : RuntimeFieldType
  | repeated (t : RuntimeType) : RuntimeFieldType
  | map (k v : RuntimeType) : RuntimeFieldType

/-- A field descriptor: name, number, runtime shape, the decoded custom
options (none when the field carries no annotation bytes), and the span that
Span::from_field resolves for it from the descriptor's file ancestry. -/
inductive FieldDescriptor where
  | mk (name : String) (number : Int) (ftype : RuntimeFieldType)
       (options : Option FieldOptions) (span : Option Span) : FieldDescriptor

/-- A message descriptor: short name, full name, fields in declaration order,
and the decoded message-level index options. -/
inductive MessageDescriptor where
  | mk (name fullName : String) (fields : List FieldDescriptor)
       (index : Option IndexOpts) : MessageDescriptor
end

def FieldDescriptor.name : FieldDescriptor → String
  | .mk n _ _ _ _ => n

def FieldDescriptor.number : FieldDescriptor → Int
  | .mk _ n _ _ _ => n

def FieldDescriptor.ftype : FieldDescriptor → RuntimeFieldType
  | .mk _ _ t _ _ => t

def FieldDescriptor.options : FieldDescriptor → Option FieldOptions
  | .mk _ _ _ o _ => o

def FieldDescriptor.span : FieldDescriptor → Option Span
  | .mk _ _ _ _ s => s

def MessageDescriptor.name : MessageDescriptor → String
  | .mk n _ _ _ => n

def MessageDescriptor.fullName : MessageDescriptor → String
  | .mk _ fn _ _ => fn

def MessageDescriptor.fields : MessageDescriptor → List FieldDescriptor
  | .mk _ _ fs _ => fs

def MessageDescriptor.index : MessageDescriptor → Option IndexOpts
  | .mk _ _ _ i => i

/-- get_field_options (options.rs lines 11-26): the wire-level scan of the
unknown option byte ranges and their decode happen in the protobuf library;
the embedding carries its outcome on the descriptor. -/
def get_field_options (f : FieldDescriptor) : Option FieldOptions :=
  f.options

/-- get_index_options (options.rs lines 28-43), likewise pre-decoded. -/
def get_index_options (m : MessageDescriptor) : Option IndexOpts :=
  m.index

/-- property_name (options.rs lines 46-51): return the name override if the
option is present (has_name), otherwise the field's declared name. -/
def property_name (f : FieldDescriptor) (options : FieldOptions) : String :=
  match options.name with
  | some n => n
  | none => f.name

/-- infer_type (plugin.rs lines 168-182). -/
def infer_type : RuntimeType → String
  | .i32 => "integer"
  | .i64 => "long"
  | .u32 => "long"
  | .u64 => "unsigned_long"
  | .f32 => "float"
  | .f64 => "double"
  | .bool => "boolean"
  | .string => "keyword"
  | .vecU8 => "binary"
  | .message _ => "object"
  | .enum _ => "keyword"

mutual
/-- A compiled document mapping (mapping.rs Mapping): optional back-reference
to the compiled descriptor, optional message-level index options, and the
by-name property map (BTreeMap, modelled as a name-sorted association list). -/
inductive Mapping where
  | mk (descriptor : Option MessageDescriptor) (index : Option IndexOpts)
       (properties : List (String × Property)) : Mapping

/-- A mapping property (mapping.rs Property): a scalar leaf or an object
carrying a nested mapping. -/
inductive Property where
  | leaf (params : Parameters) : Property
  | object (parameters : Parameters) (properties : Mapping) : Property

/-- Property parameters (mapping.rs Parameters): either the typed FieldMapping
with an optionally inferred type, or the raw JSON object of a target override. -/
inductive Parameters where
  | typed (field_mapping : FieldMapping) (inferred_type : Option String) : Parameters
  | raw (m : List (String × Json)) : Parameters
end

def Mapping.descriptor : Mapping → Option MessageDescriptor
  | .mk d _ _ => d

def Mapping.index : Mapping → Option IndexOpts
  | .mk _ i _ => i

def Mapping.properties : Mapping → List (String × Property)
  | .mk _ _ p => p

/-- Mapping::default. -/
def Mapping.default : Mapping :=
  .mk none none []

/-- Lexicographic comparison of character sequences by code point.  BTreeMap
over String keys compares keys by their UTF-8 bytes; for valid UTF-8, byte
order and code-point order coincide, and this executable comparison embeds
that key order. -/
def charListLt : List Char → List Char → Bool
  | [], [] => false
  | [], _ :: _ => true
  | _ :: _, [] => false
  | a :: as, b :: bs =>
      if a.toNat < b.toNat then true
      else if b.toNat < a.toNat then false
      else charListLt as bs

/-- The BTreeMap key order on strings. -/
def strLt (a b : String) : Bool :=
  charListLt a.data b.data

theorem charListLt_trans : ∀ (as bs cs : List Char),
    charListLt as bs = true → charListLt bs cs = true →
    charListLt as cs = true := by
  intro as
  induction as with
  | nil =>
      intro bs cs h1 h2
      cases bs with
      | nil => cases h1
      | cons b bs2 =>
          cases cs with
          | nil => cases h2
          | cons c cs2 => rfl
  | cons a as ih =>
      intro bs cs h1 h2
      cases bs with
      | nil => cases h1
      | cons b bs2 =>
          cases cs with
          | nil => cases h2
          | cons c cs2 =>
              simp only [charListLt] at h1 h2 ⊢
              split_ifs at h1 h2 ⊢ <;> first
                | rfl
                | omega
                | (exact ih bs2 cs2 h1 h2)

theorem charListLt_conn : ∀ (as bs : List Char),
    charListLt as bs = false → as ≠ bs → charListLt bs as = true := by
  intro as
  induction as with
  | nil =>
      intro bs h1 h2
      cases bs with
      | nil => exact absurd rfl h2
      | cons b bs2 => cases h1
  | cons a as ih =>
      intro bs h1 h2
      cases bs with
      | nil => rfl
      | cons b bs2 =>
          simp only [charListLt] at h1 ⊢
          by_cases hab : a.toNat < b.toNat
          · rw [if_pos hab] at h1
            cases h1
          · rw [if_neg hab] at h1
            by_cases hba : b.toNat < a.toNat
            · rw [if_pos hba]
            · rw [if_neg hba] at h1
              have hn : a.toNat = b.toNat := by omega
              have hab2 : a = b := Char.eq_of_val_eq (UInt32.eq_of_toBitVec_eq
                (BitVec.eq_of_toNat_eq hn))
              rw [if_neg hba, if_neg hab]
              apply ih bs2 h1
              intro he
              exact h2 (by rw [hab2, he])

theorem charListLt_irrefl : ∀ as : List Char, charListLt as as = false := by
  intro as
  induction as with
  | nil => rfl
  | cons a as ih => simp [charListLt, ih]

theorem strLt_irrefl (a : String) : strLt a a = false :=
  charListLt_irrefl a.data

theorem strLt_trans (a b c : String) (h1 : strLt a b = true)
    (h2 : strLt b c = true) : strLt a c = true :=
  charListLt_trans a.data b.data c.data h1 h2

theorem strLt_conn (a b : String) (h1 : strLt a b = false)
    (h2 : (a == b) = false) : strLt b a = true := by
  apply charListLt_conn a.data b.data h1
  intro he
  have hab : a = b := by
    cases a
    cases b
    exact congrArg String.mk (by simpa using he)
  rw [hab] at h2
  simp at h2

/-- BTreeMap insertion on a key-sorted association list: replaces the value at
an existing key, otherwise inserts at the sorted position. -/
def insertSorted {α : Type} (k : String) (v : α) : List (String × α) → List (String × α)
  | [] => [(k, v)]
  | (k2, v2) :: rest =>
      if strLt k k2 then (k, v) :: (k2, v2) :: rest
      else if k == k2 then (k, v) :: rest
      else (k2, v2) :: insertSorted k v rest

/-- The Leaf-to-Object reclassification of compile_field (plugin.rs lines
139-145). -/
def reclassify (p : Property) (sub : Mapping) : Property :=
  match sub.properties.isEmpty, p with
  | false, .leaf params => .object params sub
  | _, q => q

/-- Diagnostic severity (diagnostic.rs). -/
inductive Severity where
  | warning : Severity
  | error : Severity
deriving Repr, DecidableEq

/-- Diagnostic kinds (diagnostic.rs DiagnosticKind; the unknownTarget variant
is the one plugin.rs and the crate's tests construct). -/
inductive DiagnosticKind where
  | invalidTargetJson (message field label : String) : DiagnosticKind
  | invalidTargetJsonType (message field label : String) : DiagnosticKind
  | invalidFieldName (message field name : String) : DiagnosticKind
  | invalidParameterValue (message field parameter reason : String) : DiagnosticKind
  | unknownTarget (message field label : String) : DiagnosticKind
deriving Repr, DecidableEq

/-- A diagnostic location: file name and optional span (diagnostic.rs). -/
structure Location where
  file : String
  span : Option Span
deriving Repr, DecidableEq

/-- A structured diagnostic (diagnostic.rs). -/
structure Diagnostic where
  severity : Severity
  kind : DiagnosticKind
  location : Option Location
deriving Repr, DecidableEq

def Diagnostic.error (kind : DiagnosticKind) : Diagnostic :=
  ⟨.error, kind, none⟩

def Diagnostic.warning (kind : DiagnosticKind) : Diagnostic :=
  ⟨.warning, kind, none⟩

def Diagnostic.atLoc (d : Diagnostic) (location : Location) : Diagnostic :=
  ⟨d.severity, d.kind, some location⟩

def Diagnostic.is_error (d : Diagnostic) : Bool :=
  match d.severity with
  | .error => true
  | .warning => false

/-- The part of the plugin Context the compiler consults: the active target
label parsed from the generation parameter. -/
structure CompileCtx where
  target : Option String

/-- property (plugin.rs lines 150-166): the default rule.  Parameters come
from the annotation's FieldMapping (or its default); when no explicit type is
set, the inferred type for the field's runtime shape is recorded (maps infer
to object without reaching the scalar branches). -/
def property (f : FieldDescriptor) (options : FieldOptions) : Property :=
  let field_mapping := options.mapping.getD default
  let inferred_type :=
    if field_mapping.type.isSome then none
    else some (match f.ftype with
      | .singular t => infer_type t
      | .repeated t => infer_type t
      | .map _ _ => "object")
  Property.leaf (.typed field_mapping inferred_type)

/-- The target-override resolution step of compile_field (plugin.rs lines
83-129): the match on the active target against the declared overrides.
Returns none (property dropped) together with the Error diagnostic in the two
JSON failure cases; otherwise the resolved property plus an optional
unknownTarget warning. -/
def resolve_property (ctx : CompileCtx) (msgName : String) (f : FieldDescriptor)
    (options : FieldOptions) (location : Location) :
    Option Property × List Diagnostic :=
  match ctx.target.bind (fun label => options.target.find? (fun t => t.label == label)) with
  | some entry =>
      match entry.json with
      | .ok (.obj params) => (some (.leaf (.raw params)), [])
      | .ok _ =>
          (none, [(Diagnostic.error
            (.invalidTargetJsonType msgName f.name entry.label)).atLoc location])
      | .error _ =>
          (none, [(Diagnostic.error
            (.invalidTargetJson msgName f.name entry.label)).atLoc location])
  | none =>
      match ctx.target with
      | some label =>
          if options.target.isEmpty then (some (property f options), [])
          else (some (property f options),
            [(Diagnostic.warning (.unknownTarget msgName f.name label)).atLoc location])
      | none => (some (property f options), [])

mutual
/-- compile_message (plugin.rs lines 50-64): build the mapping for a message,
attaching its descriptor and index options and inserting each field's compiled
property under its resolved output name in declaration order (BTreeMap insert,
so a later field overwrites an earlier one with the same output name). -/
def compile_message (ctx : CompileCtx) (m : MessageDescriptor) (file : String) :
    Mapping × List Diagnostic :=
  match m with
  | .mk name fullName fields index =>
      let r := compile_fields ctx name fields file []
      (.mk (some (.mk name fullName fields index)) index r.1, r.2)

/-- The field loop of compile_message, accumulating the property map. -/
def compile_fields (ctx : CompileCtx) (msgName : String)
    (fs : List FieldDescriptor) (file : String)
    (acc : List (String × Property)) : List (String × Property) × List Diagnostic :=
  match fs with
  | [] => (acc, [])
  | f :: rest =>
      let r := compile_field ctx msgName f file
      let acc2 := match r.1 with
        | some (n, p) => insertSorted n p acc
        | none => acc
      let rec2 := compile_fields ctx msgName rest file acc2
      (rec2.1, r.2 ++ rec2.2)

/-- compile_field (plugin.rs lines 69-147): skip unannotated fields; resolve
the property via the target-override step (dropping the field on a JSON
failure); for embedded-message shapes recursively compile the sub-message and
reclassify a Leaf as an Object when the sub-mapping has properties. -/
def compile_field (ctx : CompileCtx) (msgName : String) (f : FieldDescriptor)
    (file : String) : Option (String × Property) × List Diagnostic :=
  match f with
  | .mk fname fnumber ftype fopts fspan =>
      match fopts with
      | none => (none, [])
      | some options =>
          let name := property_name (.mk fname fnumber ftype fopts fspan) options
          let location : Location := ⟨file, fspan⟩
          match resolve_property ctx msgName (.mk fname fnumber ftype fopts fspan)
              options location with
          | (none, diags) => (none, diags)
          | (some prop, diags) =>
              let sub : Mapping × List Diagnostic :=
                match ftype with
                | .singular (.message m) => compile_message ctx m file
                | .repeated (.message m) => compile_message ctx m file
                | _ => (Mapping.default, [])
              (some (name, reclassify prop sub.1), diags ++ sub.2)
end

/-- Key membership in an association list. -/
def containsKey {α : Type} (k : String) (l : List (String × α)) : Bool :=
  l.any (fun kv => kv.1 == k)

/-- The generic JSON encoding (other_to_json) of a FieldMapping: one entry per
present field, named after the proto field. -/
def field_mapping_entries (fm : FieldMapping) : List (String × Json) :=
  (match fm.type with
   | some t => [(("type" : String), Json.str t)]
   | none => []) ++
  (match fm.ignore_above with
   | some v => [(("ignore_above" : String), Json.num v)]
   | none => []) ++
  (match fm.position_increment_gap with
   | some v => [(("position_increment_gap" : String), Json.num v)]
   | none => []) ++
  (match fm.index_prefixes with
   | some p =>
       [(("index_prefixes" : String), Json.obj
         ((match p.min_chars with
           | some v => [(("min_chars" : String), Json.num v)]
           | none => []) ++
          (match p.max_chars with
           | some v => [(("max_chars" : String), Json.num v)]
           | none => [])))]
   | none => [])

/-- parameters_to_map (mapping.rs lines 109-127): raw parameters are collected
into a BTreeMap; typed parameters encode the FieldMapping and then insert the
inferred type under the type key only when that key is absent (entry/or_insert). -/
def parameters_to_map (p : Parameters) : List (String × Json) :=
  match p with
  | .raw m => m.foldl (fun acc kv => insertSorted kv.1 kv.2 acc) []
  | .typed fm inferred =>
      let base := (field_mapping_entries fm).foldl
        (fun acc kv => insertSorted kv.1 kv.2 acc) []
      match inferred with
      | some t =>
          if containsKey "type" base then base
          else insertSorted "type" (Json.str t) base
      | none => base

mutual
/-- Serialize for Property (mapping.rs lines 76-96): a Leaf is its parameter
map; an Object is the parameter map with a properties entry holding the nested
mapping's property map. -/
def serialize_property : Property → Json
  | .leaf p => Json.obj (parameters_to_map p)
  | .object params (.mk _ _ plist) =>
      Json.obj (insertSorted "properties"
        (Json.obj (serialize_properties plist))
        (parameters_to_map params))

/-- Serialize each property of a (sorted) property map in order. -/
def serialize_properties : List (String × Property) → List (String × Json)
  | [] => []
  | (n, p) :: rest => (n, serialize_property p) :: serialize_properties rest
end

/-- Serialize for Mapping (mapping.rs lines 52-74): start from the JSON
encoding of the index options collected into a BTreeMap, and insert a
properties entry only when the property map is non-empty. -/
def serialize_mapping (m : Mapping) : Json :=
  let base := (m.index.getD []).foldl (fun acc kv => insertSorted kv.1 kv.2 acc) []
  Json.obj (if m.properties.isEmpty then base
            else insertSorted "properties"
              (Json.obj (serialize_properties m.properties)) base)

/-- JSON string escaping for the rendered output text. -/
def escapeChar (c : Char) : String :=
  if c == '"' then "\\\""
  else if c == '\\' then "\\\\"
  else if c == '\n' then "\\n"
  else if c == '\r' then "\\r"
  else if c == '\t' then "\\t"
  else String.singleton c

def escapeString (s : String) : String :=
  s.data.foldl (fun acc c => acc ++ escapeChar c) ""

mutual
/-- Compact JSON text rendering (serde_json::to_string). -/
def render_json : Json → String
  | .null => "null"
  | .bool b => cond b "true" "false"
  | .num n => toString n
  | .str s => "\"" ++ escapeString s ++ "\""
  | .arr xs => "[" ++ render_array xs ++ "]"
  | .obj fs => "\x7b" ++ render_members fs ++ "\x7d"

def render_array : List Json → String
  | [] => ""
  | [x] => render_json x
  | x :: y :: rest => render_json x ++ "," ++ render_array (y :: rest)

def render_members : List (String × Json) → String
  | [] => ""
  | [(k, v)] => "\"" ++ escapeString k ++ "\":" ++ render_json v
  | (k, v) :: y :: rest =>
      "\"" ++ escapeString k ++ "\":" ++ render_json v ++ "," ++
        render_members (y :: rest)
end

/-- Characters allowed after the first position in a property name
([a-z0-9_] of the validator's regular expression). -/
def word_char (c : Char) : Bool :=
  ('a' ≤ c && c ≤ 'z') || ('0' ≤ c && c ≤ '9') || c == '_'

mutual
/-- Tail of the name regular expression after a matched character:
[a-z0-9_]* interleaved with dot-separated non-empty segments. -/
def name_tail : List Char → Bool
  | [] => true
  | c :: rest => if c == '.' then name_seg rest else word_char c && name_tail rest

/-- A dot must be followed by at least one word character. -/
def name_seg : List Char → Bool
  | [] => false
  | c :: rest => word_char c && name_tail rest
end

/-- The validator's property-name pattern (validator.rs line 117). -/
def valid_name (s : String) : Bool :=
  match s.data with
  | [] => false
  | c :: rest => (c == '@' || ('a' ≤ c && c ≤ 'z')) && name_tail rest

/-- ValidationContext (validator.rs lines 19-62): the file name, the message
under validation, and the reverse map from output property name to the
original proto field name, built once per message from the annotated fields
(BTreeMap collect, later duplicates overwrite). -/
structure ValidationContext where
  file : String
  message : MessageDescriptor
  proto_names : List (String × String)

def ValidationContext.new (file : String) (message : MessageDescriptor) :
    ValidationContext :=
  let proto_names := message.fields.foldl
    (fun acc f =>
      match get_field_options f with
      | some opts => insertSorted (property_name f opts) f.name acc
      | none => acc) []
  ⟨file, message, proto_names⟩

def ValidationContext.proto_name (ctx : ValidationContext) (mapping_name : String) :
    String :=
  match ctx.proto_names.find? (fun kv => kv.1 == mapping_name) with
  | some kv => kv.2
  | none => mapping_name

def ValidationContext.field_span (ctx : ValidationContext) (proto_name : String) :
    Option Span :=
  (ctx.message.fields.find? (fun f => f.name == proto_name)).bind FieldDescriptor.span

def ValidationContext.location (ctx : ValidationContext) (proto_name : String) :
    Location :=
  ⟨ctx.file, ctx.field_span proto_name⟩

/-- field_mapping (validator.rs lines 230-239): the typed FieldMapping carried
by a Leaf or Object property, when present. -/
def field_mapping_of : Property → Option FieldMapping
  | .leaf (.typed fm _) => some fm
  | .object (.typed fm _) _ => some fm
  | _ => none

/-- InvalidNameCheck (validator.rs lines 105-129). -/
def invalid_name_check (ctx : ValidationContext) (name : String)
    (_property : Property) : List Diagnostic :=
  let proto_name := ctx.proto_name name
  if valid_name name then []
  else [(Diagnostic.warning
    (.invalidFieldName ctx.message.fullName proto_name name)).atLoc
      (ctx.location proto_name)]

/-- InvalidIgnoreAboveCheck (validator.rs lines 131-157). -/
def invalid_ignore_above_check (ctx : ValidationContext) (name : String)
    (property : Property) : List Diagnostic :=
  let proto_name := ctx.proto_name name
  match field_mapping_of property with
  | none => []
  | some fm =>
      match fm.ignore_above with
      | some v =>
          if v ≤ 0 then
            [(Diagnostic.error (.invalidParameterValue ctx.message.fullName
              proto_name "ignore_above" "must be greater than 0")).atLoc
                (ctx.location proto_name)]
          else []
      | none => []

/-- InvalidPositionIncrementGapCheck (validator.rs lines 159-186). -/
def invalid_position_increment_gap_check (ctx : ValidationContext) (name : String)
    (property : Property) : List Diagnostic :=
  let proto_name := ctx.proto_name name
  match field_mapping_of property with
  | none => []
  | some fm =>
      match fm.position_increment_gap with
      | some v =>
          if v < 0 then
            [(Diagnostic.error (.invalidParameterValue ctx.message.fullName
              proto_name "position_increment_gap"
              "must be greater than or equal to 0")).atLoc
                (ctx.location proto_name)]
          else []
      | none => []

/-- InvalidIndexPrefixesCheck (validator.rs lines 188-228). -/
def invalid_index_prefixes_check (ctx : ValidationContext) (name : String)
    (property : Property) : List Diagnostic :=
  let proto_name := ctx.proto_name name
  match field_mapping_of property with
  | none => []
  | some fm =>
      match fm.index_prefixes with
      | none => []
      | some prefixes =>
          (match prefixes.min_chars with
           | some v =>
               if v < 0 then
                 [(Diagnostic.error (.invalidParameterValue ctx.message.fullName
                   proto_name "index_prefixes.min_chars"
                   "must be greater than or equal to 0")).atLoc
                     (ctx.location proto_name)]
               else []
           | none => []) ++
          (match prefixes.max_chars with
           | some v =>
               if !(0 ≤ v && v ≤ 20) then
                 [(Diagnostic.error (.invalidParameterValue ctx.message.fullName
                   proto_name "index_prefixes.max_chars"
                   "must be less than or equal to 20")).atLoc
                     (ctx.location proto_name)]
               else []
           | none => [])

/-- The fixed CHECKS battery (validator.rs lines 12-17) applied to one
property, in declaration order. -/
def run_checks (ctx : ValidationContext) (name : String) (property : Property) :
    List Diagnostic :=
  invalid_name_check ctx name property ++
  invalid_ignore_above_check ctx name property ++
  invalid_position_increment_gap_check ctx name property ++
  invalid_index_prefixes_check ctx name property

mutual
/-- walk (validator.rs lines 82-103): run every check on the property, then
recurse into an Object's nested properties under the nested message's own
context when the nested mapping retained its descriptor. -/
def walk (ctx : ValidationContext) (name : String) (property : Property) :
    List Diagnostic :=
  match property with
  | .leaf p => run_checks ctx name (.leaf p)
  | .object params (.mk d i plist) =>
      let own := run_checks ctx name (.object params (.mk d i plist))
      let ctx2 := match d with
        | some desc => ValidationContext.new ctx.file desc
        | none => ctx
      own ++ walk_props ctx2 plist

def walk_props (ctx : ValidationContext) : List (String × Property) → List Diagnostic
  | [] => []
  | (n, p) :: rest => walk ctx n p ++ walk_props ctx rest
end

/-- validate (validator.rs lines 74-80). -/
def validate (ctx : ValidationContext) (mapping : Mapping) : List Diagnostic :=
  walk_props ctx mapping.properties

/-- Request-fatal errors (error.rs; only the variant process raises here). -/
inductive PluginError where
  | invalidRequest (msg : String) : PluginError
deriving Repr, DecidableEq

/-- A linked file descriptor: its name and its top-level messages. -/
structure FileDescriptor where
  name : String
  messages : List MessageDescriptor

/-- The plugin request: files to generate, the generation parameter string,
and the full descriptor set (already linked into FileDescriptor values). -/
structure CodeGeneratorRequest where
  file_to_generate : List String
  parameter : String
  proto_file : List FileDescriptor

/-- The standard-library split on the comma character, modelled structurally
over the character list (Rust s.split(',')): empty input yields one empty
part, and every comma opens a new part. -/
def split_on_comma : List Char → List (List Char)
  | [] => [[]]
  | c :: rest =>
      if c = ',' then [] :: split_on_comma rest
      else
        match split_on_comma rest with
        | seg :: segs => (c :: seg) :: segs
        | [] => [[c]]

/-- The standard-library strip_prefix for the literal prefix the config loop
uses (Rust param.strip_prefix of target=). -/
def strip_target : List Char → Option (List Char)
  | 't' :: 'a' :: 'r' :: 'g' :: 'e' :: 't' :: '=' :: rest => some rest
  | _ => none

/-- The parameter loop of Config::try_from (config.rs lines 11-21): comma
split, empty parts skipped, target=V sets the target (last one wins), any
other part is an InvalidRequest error. -/
def config_params : List (List Char) → Option String → Except PluginError (Option String)
  | [], target => .ok target
  | p :: rest, _target =>
      match strip_target p with
      | some v => config_params rest (some (String.mk v))
      | none => .error (.invalidRequest ("unknown parameter: " ++ String.mk p))

/-- Config::try_from (config.rs lines 8-22). -/
def Config.try_from (s : String) : Except PluginError (Option String) :=
  config_params ((split_on_comma s.data).filter (fun x => !x.isEmpty)) none

/-- The plugin Context consumed by process: the requested file names, the
descriptor index, and the parsed target label. -/
structure Context where
  files_to_generate : List String
  file_descriptors : List FileDescriptor
  target : Option String

/-- Modelled from the spec: the Context constructor that process calls
(Context::try_from(request), missing from src, whose src/context.rs predates
the current plugin.rs) indexes the request's descriptors by file name and
parses the generation parameter, propagating its InvalidRequest failure
(spec sections 4.1 and 6). -/
def Context.try_from (r : CodeGeneratorRequest) : Except PluginError Context := do
  let target ← Config.try_from r.parameter
  pure ⟨r.file_to_generate, r.proto_file, target⟩

def Context.get_file_descriptor_by_name (ctx : Context) (name : String) :
    Option FileDescriptor :=
  ctx.file_descriptors.find? (fun fd => fd.name == name)

/-- The per-message body of the process loop (plugin.rs lines 27-43): compile,
validate, and emit the named output entry only when the mapping is non-empty
and the message produced no Error diagnostic. -/
def process_message (ctx : Context) (filename : String) (m : MessageDescriptor) :
    Option (String × String) × List Diagnostic :=
  let vctx := ValidationContext.new filename m
  let r := compile_message ⟨ctx.target⟩ m filename
  let message_diagnostics := r.2 ++ validate vctx r.1
  let has_errors := message_diagnostics.any Diagnostic.is_error
  let out :=
    if (!r.1.properties.isEmpty || r.1.index.isSome) && !has_errors then
      some (m.fullName ++ ".json", render_json (serialize_mapping r.1))
    else none
  (out, message_diagnostics)

/-- The message loop of process for one file. -/
def process_messages (ctx : Context) (filename : String) :
    List MessageDescriptor → List (String × String) × List Diagnostic
  | [] => ([], [])
  | m :: rest =>
      let r := process_message ctx filename m
      let rec2 := process_messages ctx filename rest
      ((match r.1 with
        | some f => [f]
        | none => []) ++ rec2.1, r.2 ++ rec2.2)

/-- The file loop of process: a requested file without a descriptor aborts the
whole run with InvalidRequest. -/
def process_files (ctx : Context) :
    List String → Except PluginError (List (String × String) × List Diagnostic)
  | [] => .ok ([], [])
  | fname :: rest =>
      match ctx.get_file_descriptor_by_name fname with
      | none => .error (.invalidRequest ("missing descriptor for " ++ fname))
      | some fd =>
          let r := process_messages ctx fname fd.messages
          (process_files ctx rest).map
            (fun rec2 => (r.1 ++ rec2.1, r.2 ++ rec2.2))

/-- process (plugin.rs lines 15-47): the response is the list of generated
(name, content) entries, next to the aggregated diagnostics. -/
def process (request : CodeGeneratorRequest) :
    Except PluginError (List (String × String) × List Diagnostic) := do
  let ctx ← Context.try_from request
  process_files ctx ctx.files_to_generate

/-- Whether a property was classified as an Object. -/
def Property.isObject : Property → Bool
  | .object _ _ => true
  | .leaf _ => false

/-- The embedded-message extraction of compile_field (plugin.rs lines
131-135): the message type of a singular or repeated message-shaped field. -/
def embedded_message (f : FieldDescriptor) : Option MessageDescriptor :=
  match f.ftype with
  | .singular (.message m) => some m
  | .repeated (.message m) => some m
  | _ => none

/-- The sub-mapping compilation step of compile_field (plugin.rs lines
130-138): compile the embedded message when there is one, otherwise the
default (empty) mapping with no diagnostics. -/
def sub_compile (ctx : CompileCtx) (f : FieldDescriptor) (file : String) :
    Mapping × List Diagnostic :=
  match embedded_message f with
  | some m => compile_message ctx m file
  | none => (Mapping.default, [])

/-- Value lookup in an association list. -/
def lookupKey {α : Type} (k : String) (l : List (String × α)) : Option α :=
  (l.find? (fun kv => kv.1 == k)).map (fun kv => kv.2)


theorem resolve_property_some_leaf (ctx : CompileCtx) (msgName : String)
    (f : FieldDescriptor) (options : FieldOptions) (location : Location)
    (p : Property) (ds : List Diagnostic)
    (h : resolve_property ctx msgName f options location = (some p, ds)) :
    ∃ params, p = .leaf params := by
  unfold resolve_property property at h
  repeat' split at h
  all_goals injection h with h1 h2
  all_goals first
    | (injection h1; done)
    | (injection h1 with h1; subst h1; exact ⟨_, rfl⟩)

theorem compile_field_unfold (ctx : CompileCtx) (msgName : String)
    (f : FieldDescriptor) (file : String) :
    compile_field ctx msgName f file =
      match f.options with
      | none => (none, [])
      | some options =>
          match resolve_property ctx msgName f options ⟨file, f.span⟩ with
          | (none, ds) => (none, ds)
          | (some p, ds) =>
              (some (property_name f options,
                 reclassify p (sub_compile ctx f file).1),
               ds ++ (sub_compile ctx f file).2) := by
  cases f with
  | mk fname fnumber ftype fo fspan =>
      cases fo with
      | none => rfl
      | some options =>
          rcases hr : resolve_property ctx msgName
              (.mk fname fnumber ftype (some options) fspan) options ⟨file, fspan⟩ with ⟨r, ds⟩
          cases ftype with
          | singular t =>
              cases t <;> simp only [compile_field, FieldDescriptor.options,
                FieldDescriptor.span, hr] <;> cases r <;> rfl
          | repeated t =>
              cases t <;> simp only [compile_field, FieldDescriptor.options,
                FieldDescriptor.span, hr] <;> cases r <;> rfl
          | map k v =>
              simp only [compile_field, FieldDescriptor.options,
                FieldDescriptor.span, hr]
              cases r <;> rfl

/-- C1: a property compiled by compile_field is classified as Object exactly
when the field is an embedded-message field (singular or repeated) whose
recursively compiled sub-mapping has at least one property; every Object
carries that non-empty compiled sub-mapping; and an embedded-message field
whose sub-mapping has zero properties and no index options collapses to a
Leaf. -/
theorem object_iff_nonempty_submapping (ctx : CompileCtx) (msgName file : String)
    (f : FieldDescriptor) (n : String) (prop : Property) (diags : List Diagnostic)
    (h : compile_field ctx msgName f file = (some (n, prop), diags)) :
    ((∃ m, embedded_message f = some m ∧
        (compile_message ctx m file).1.properties ≠ []) ↔ prop.isObject = true) ∧
    (∀ params sub, prop = .object params sub →
        ∃ m, embedded_message f = some m ∧ sub = (compile_message ctx m file).1 ∧
          sub.properties ≠ []) ∧
    (∀ m, embedded_message f = some m →
        (compile_message ctx m file).1.properties = [] →
        (compile_message ctx m file).1.index = none →
        ∃ params, prop = .leaf params) := by
  rw [compile_field_unfold] at h
  rcases ho : f.options with _ | options
  · rw [ho] at h
    exact absurd h (by simp)
  · rw [ho] at h
    dsimp only at h
    rcases hr : resolve_property ctx msgName f options ⟨file, f.span⟩ with ⟨r, ds⟩
    rw [hr] at h
    rcases r with _ | p
    · exact absurd h (by simp)
    · obtain ⟨params, hp⟩ := resolve_property_some_leaf ctx msgName f options ⟨file, f.span⟩ p ds hr
      subst hp
      simp only [Prod.mk.injEq, Option.some.injEq] at h
      obtain ⟨⟨hn, hprop⟩, hdiags⟩ := h
      rcases hm : embedded_message f with _ | m
      · have hsub : sub_compile ctx f file = (Mapping.default, []) := by
          unfold sub_compile
          rw [hm]
        rw [hsub] at hprop
        have hprop2 : prop = .leaf params := by
          rw [← hprop]
          rfl
        subst hprop2
        refine ⟨?_, ?_, ?_⟩
        · constructor
          · rintro ⟨m, hm2, _⟩
            simp at hm2
          · intro hobj
            cases hobj
        · intro params2 sub2 heq
          cases heq
        · intro m hm2
          simp at hm2
      · have hsub : sub_compile ctx f file = compile_message ctx m file := by
          unfold sub_compile
          rw [hm]
        rw [hsub] at hprop
        rcases hprops : (compile_message ctx m file).1.properties with _ | ⟨x, xs⟩
        · have hprop2 : prop = .leaf params := by
            rw [← hprop]
            unfold reclassify
            rw [hprops]
            rfl
          subst hprop2
          refine ⟨?_, ?_, ?_⟩
          · constructor
            · rintro ⟨m2, hm2, hne⟩
              injection hm2 with hm2
              subst hm2
              exact absurd hprops hne
            · intro hobj
              cases hobj
          · intro params2 sub2 heq
            cases heq
          · intro m2 hm2 _ _
            exact ⟨params, rfl⟩
        · have hprop2 : prop = .object params (compile_message ctx m file).1 := by
            rw [← hprop]
            unfold reclassify
            rw [hprops]
            rfl
          subst hprop2
          refine ⟨?_, ?_, ?_⟩
          · constructor
            · intro _
              rfl
            · intro _
              exact ⟨m, rfl, by rw [hprops]; simp⟩
          · intro params2 sub2 heq
            injection heq with h1 h2
            subst h1
            subst h2
            exact ⟨m, rfl, rfl, by rw [hprops]; simp⟩
          · intro m2 hm2 hempty _
            injection hm2 with hm2
            subst hm2
            rw [hprops] at hempty
            cases hempty

def c1_sub_field : FieldDescriptor :=
  .mk "inner" 1 (.singular .string) (some ⟨none, none, []⟩) none

def c1_sub_msg : MessageDescriptor :=
  .mk "Sub" "tests.Sub" [c1_sub_field] none

def c1_field : FieldDescriptor :=
  .mk "outer" 2 (.singular (.message c1_sub_msg)) (some ⟨none, none, []⟩) none

def c1_prop : Property :=
  Property.object (.typed ⟨none, none, none, none⟩ (some "object"))
    (Mapping.mk (some c1_sub_msg) none
      [(("inner" : String),
        Property.leaf (.typed ⟨none, none, none, none⟩ (some "keyword")))])

/-- C1 witness: a concrete embedded-message field with an annotated inner
field compiles to an Object, discharging the hypothesis of the claim
theorem. -/
theorem object_iff_nonempty_submapping_witness :
    compile_field ⟨none⟩ "Outer" c1_field "t.proto" = (some ("outer", c1_prop), []) ∧
    (((∃ m, embedded_message c1_field = some m ∧
        (compile_message ⟨none⟩ m "t.proto").1.properties ≠ []) ↔
          c1_prop.isObject = true) ∧
     (∀ params sub, c1_prop = .object params sub →
        ∃ m, embedded_message c1_field = some m ∧
          sub = (compile_message ⟨none⟩ m "t.proto").1 ∧ sub.properties ≠ []) ∧
     (∀ m, embedded_message c1_field = some m →
        (compile_message ⟨none⟩ m "t.proto").1.properties = [] →
        (compile_message ⟨none⟩ m "t.proto").1.index = none →
          ∃ params, c1_prop = .leaf params)) :=
  ⟨rfl, object_iff_nonempty_submapping ⟨none⟩ "Outer" "t.proto" c1_field "outer"
    c1_prop [] rfl⟩

theorem lookupKey_insertSorted_self {α : Type} (k : String) (v : α)
    (l : List (String × α)) : lookupKey k (insertSorted k v l) = some v := by
  induction l with
  | nil => simp [insertSorted, lookupKey]
  | cons kv rest ih =>
      obtain ⟨k2, v2⟩ := kv
      by_cases h1 : strLt k k2 = true
      · simp [insertSorted, h1, lookupKey]
      · by_cases h2 : k = k2
        · simp [insertSorted, h1, h2, lookupKey, strLt_irrefl]
        · have hne : (k2 == k) = false := by
            simp only [beq_eq_false_iff_ne, ne_eq]
            exact fun hh => h2 hh.symm
          simp only [insertSorted, if_neg h1, beq_iff_eq, if_neg h2]
          simpa [lookupKey, hne] using ih

theorem containsKey_insertSorted {α : Type} (k k2 : String) (v : α)
    (l : List (String × α)) :
    containsKey k (insertSorted k2 v l) = ((k2 == k) || containsKey k l) := by
  induction l with
  | nil => simp [insertSorted, containsKey]
  | cons kv rest ih =>
      obtain ⟨k3, v3⟩ := kv
      by_cases h1 : strLt k2 k3 = true
      · simp [insertSorted, h1, containsKey]
      · by_cases h2 : k2 = k3
        · subst h2
          simp [insertSorted, h1, containsKey, strLt_irrefl]
        · simp only [insertSorted, if_neg h1, beq_iff_eq, if_neg h2]
          simp [containsKey] at ih ⊢
          rw [ih]
          cases k3 == k <;> cases k2 == k <;> simp

theorem containsKey_foldl_insertSorted {α : Type} (k : String)
    (l acc : List (String × α)) :
    containsKey k (l.foldl (fun a kv => insertSorted kv.1 kv.2 a) acc) =
      (l.any (fun kv => kv.1 == k) || containsKey k acc) := by
  induction l generalizing acc with
  | nil => simp
  | cons kv rest ih =>
      simp only [List.foldl_cons, List.any_cons, ih, containsKey_insertSorted]
      cases h1 : kv.1 == k <;> simp

/-- The property-name rule as the claim words it: the override only when it is
non-empty. -/
def property_name_claimed (f : FieldDescriptor) (options : FieldOptions) : String :=
  match options.name with
  | some n => if n.isEmpty then f.name else n
  | none => f.name

def c3_opts : FieldOptions :=
  ⟨some "", none, []⟩

def c3_field : FieldDescriptor :=
  .mk "title" 1 (.singular .string) (some c3_opts) none

/-- C3 counterexample: a present-but-empty name override.  property_name
(options.rs) returns the override whenever it is present (has_name), so the
empty override wins, while the claim's non-empty rule would fall back to the
declared field name. -/
theorem property_name_counterexample :
    c3_opts.name = some "" ∧ c3_field.name = "title" ∧
    property_name c3_field c3_opts = "" ∧
    property_name_claimed c3_field c3_opts = "title" ∧
    property_name c3_field c3_opts ≠ property_name_claimed c3_field c3_opts := by
  refine ⟨rfl, rfl, rfl, rfl, ?_⟩
  decide

/-- C3 (amended): the resolved output property name of a compiled field is
the annotation's name override whenever the override is present — even when
it is the empty string — and the field's declared name only when no override
is present. -/
theorem property_name_present_override (ctx : CompileCtx) (msgName file : String)
    (f : FieldDescriptor) (opts : FieldOptions) (n : String) (prop : Property)
    (diags : List Diagnostic)
    (h1 : f.options = some opts)
    (h2 : compile_field ctx msgName f file = (some (n, prop), diags)) :
    n = match opts.name with
        | some o => o
        | none => f.name := by
  rw [compile_field_unfold, h1] at h2
  dsimp only at h2
  rcases hr : resolve_property ctx msgName f opts ⟨file, f.span⟩ with ⟨r, ds⟩
  rw [hr] at h2
  rcases r with _ | p
  · exact absurd h2 (by simp)
  · simp only [Prod.mk.injEq, Option.some.injEq] at h2
    rw [← h2.1.1]
    rfl

/-- C3 amended-theorem witness at the counterexample input: the empty
override is the resolved name. -/
theorem property_name_present_override_witness :
    c3_field.options = some c3_opts ∧
    compile_field ⟨none⟩ "M" c3_field "t.proto" =
      (some ("", Property.leaf (.typed ⟨none, none, none, none⟩ (some "keyword"))), []) ∧
    ("" : String) = (match c3_opts.name with
      | some o => o
      | none => c3_field.name) :=
  ⟨rfl, rfl, property_name_present_override ⟨none⟩ "M" "t.proto" c3_field c3_opts
    "" (Property.leaf (.typed ⟨none, none, none, none⟩ (some "keyword"))) [] rfl rfl⟩

/-- C4: the inference table of infer_type (plugin.rs lines 168-182) — total
over the closed set of runtime shapes by construction — and the default rule:
every annotated field whose effective FieldMapping (the annotation's mapping
or, when the annotation carries none, its unwrap_or_default value) sets no
explicit type gets the inferred type of its runtime shape as its emitted type
parameter. -/
theorem infer_type_table :
    (infer_type .i32 = "integer") ∧ (infer_type .i64 = "long") ∧
    (infer_type .u64 = "unsigned_long") ∧ (infer_type .f32 = "float") ∧
    (infer_type .f64 = "double") ∧ (infer_type .bool = "boolean") ∧
    (infer_type .string = "keyword") ∧ (infer_type .vecU8 = "binary") ∧
    (∀ nm, infer_type (.enum nm) = "keyword") ∧
    (∀ m, infer_type (.message m) = "object") ∧
    (∀ f opts, (opts.mapping.getD default).type = none →
      property f opts = .leaf (.typed (opts.mapping.getD default)
        (some (match f.ftype with
          | .singular t => infer_type t
          | .repeated t => infer_type t
          | .map _ _ => "object")))) ∧
    (∀ fm t, fm.type = none →
      lookupKey "type" (parameters_to_map (.typed fm (some t))) =
        some (.str t)) := by
  refine ⟨rfl, rfl, rfl, rfl, rfl, rfl, rfl, rfl, fun _ => rfl, fun _ => rfl, ?_, ?_⟩
  · intro f opts ht
    unfold property
    simp [ht]
  · intro fm t ht
    have hck : containsKey "type"
        ((field_mapping_entries fm).foldl
          (fun acc kv => insertSorted kv.1 kv.2 acc) []) = false := by
      rw [containsKey_foldl_insertSorted]
      rcases fm with ⟨tt, ia, pig, ip⟩
      simp only [FieldMapping.type] at ht
      subst ht
      cases ia <;> cases pig <;> cases ip <;>
        simp [field_mapping_entries, containsKey]
    unfold parameters_to_map
    dsimp only
    rw [hck]
    simp only [Bool.false_eq_true, if_false]
    exact lookupKey_insertSorted_self "type" (Json.str t) _

def c4_opts : FieldOptions :=
  ⟨none, none, []⟩

def c4_field : FieldDescriptor :=
  .mk "count" 1 (.singular .i32) (some c4_opts) none

def c4_fm_opts : FieldOptions :=
  ⟨none, some ⟨none, some 10, none, none⟩, []⟩

def c4_fm_field : FieldDescriptor :=
  .mk "total" 2 (.singular .i64) (some c4_fm_opts) none

/-- C4 witness: a singular i32 field whose annotation carries no FieldMapping
at all (the unwrap_or_default path) infers integer and emits it as the type
parameter; a singular i64 field whose FieldMapping sets other parameters but
no type infers long. -/
theorem infer_type_table_witness :
    c4_opts.mapping = none ∧ (c4_opts.mapping.getD default).type = none ∧
    property c4_field c4_opts =
      .leaf (.typed (c4_opts.mapping.getD default) (some "integer")) ∧
    lookupKey "type"
      (parameters_to_map (.typed (c4_opts.mapping.getD default) (some "integer"))) =
      some (.str "integer") ∧
    (c4_fm_opts.mapping.getD default).type = none ∧
    property c4_fm_field c4_fm_opts =
      .leaf (.typed (c4_fm_opts.mapping.getD default) (some "long")) :=
  ⟨rfl, rfl,
   infer_type_table.2.2.2.2.2.2.2.2.2.2.1 c4_field c4_opts rfl,
   infer_type_table.2.2.2.2.2.2.2.2.2.2.2 (c4_opts.mapping.getD default)
     "integer" rfl,
   rfl,
   infer_type_table.2.2.2.2.2.2.2.2.2.2.1 c4_fm_field c4_fm_opts rfl⟩

/-- C7: for a property carrying a typed field mapping, the ignore_above check
(validator.rs lines 131-157) emits a diagnostic exactly when ignore_above is
present with a value at most 0, and the diagnostic it emits is the Error
InvalidParameterValue for parameter ignore_above at the field's location. -/
theorem ignore_above_check_iff (ctx : ValidationContext) (name : String)
    (prop : Property) (fm : FieldMapping)
    (h : field_mapping_of prop = some fm) :
    ((invalid_ignore_above_check ctx name prop ≠ []) ↔
      (∃ v, fm.ignore_above = some v ∧ v ≤ 0)) ∧
    (∀ v, fm.ignore_above = some v → v ≤ 0 →
      invalid_ignore_above_check ctx name prop =
        [(Diagnostic.error (.invalidParameterValue ctx.message.fullName
          (ctx.proto_name name) "ignore_above" "must be greater than 0")).atLoc
            (ctx.location (ctx.proto_name name))]) := by
  obtain ⟨tt, ia, pig, ip⟩ := fm
  unfold invalid_ignore_above_check
  rw [h]
  dsimp only [FieldMapping.ignore_above]
  cases ia with
  | none =>
      refine ⟨by simp, ?_⟩
      intro v hv2
      simp at hv2
  | some v =>
      dsimp only
      by_cases hle : v ≤ 0
      · rw [if_pos hle]
        refine ⟨⟨fun _ => ⟨v, rfl, hle⟩, fun _ => by simp⟩, ?_⟩
        intro v2 hv2 hle2
        rfl
      · rw [if_neg hle]
        refine ⟨⟨fun hcon => absurd rfl hcon, ?_⟩, ?_⟩
        · rintro ⟨v2, hv2, hle2⟩
          injection hv2 with hv2
          subst hv2
          exact absurd hle2 hle
        · intro v2 hv2 hle2
          injection hv2 with hv2
          subst hv2
          exact absurd hle2 hle

def c7_fm : FieldMapping :=
  ⟨some "keyword", some 0, none, none⟩

def c7_prop : Property :=
  .leaf (.typed c7_fm none)

def c7_ctx : ValidationContext :=
  ValidationContext.new "t.proto" (.mk "M" "tests.M" [] none)

/-- C7 witness: ignore_above set to 0 on a typed leaf property. -/
theorem ignore_above_check_iff_witness :
    field_mapping_of c7_prop = some c7_fm ∧
    (((invalid_ignore_above_check c7_ctx "valid" c7_prop ≠ []) ↔
       (∃ v, c7_fm.ignore_above = some v ∧ v ≤ 0)) ∧
     (∀ v, c7_fm.ignore_above = some v → v ≤ 0 →
       invalid_ignore_above_check c7_ctx "valid" c7_prop =
         [(Diagnostic.error (.invalidParameterValue c7_ctx.message.fullName
           (c7_ctx.proto_name "valid") "ignore_above"
           "must be greater than 0")).atLoc
             (c7_ctx.location (c7_ctx.proto_name "valid"))])) :=
  ⟨rfl, ignore_above_check_iff c7_ctx "valid" c7_prop c7_fm rfl⟩

/-- C5: when the active target label matches a declared override, a parse
failure of the override's JSON text yields exactly one Error diagnostic
InvalidTargetJson located at the field, and a successful parse to a non-object
yields exactly one Error diagnostic InvalidTargetJsonType; in both cases the
field contributes no property (compile_field returns none). -/
theorem target_json_failure_drops_property (ctx : CompileCtx)
    (msgName file : String) (f : FieldDescriptor) (opts : FieldOptions)
    (label : String) (entry : Target)
    (h1 : f.options = some opts) (h2 : ctx.target = some label)
    (h3 : opts.target.find? (fun t => t.label == label) = some entry) :
    (entry.json = .error () →
      compile_field ctx msgName f file =
        (none, [(Diagnostic.error
          (.invalidTargetJson msgName f.name entry.label)).atLoc ⟨file, f.span⟩])) ∧
    (∀ v, entry.json = .ok v → (∀ flds, v ≠ .obj flds) →
      compile_field ctx msgName f file =
        (none, [(Diagnostic.error
          (.invalidTargetJsonType msgName f.name entry.label)).atLoc ⟨file, f.span⟩])) := by
  have hb : ctx.target.bind
      (fun label => opts.target.find? (fun t => t.label == label)) = some entry := by
    rw [h2]
    exact h3
  rw [compile_field_unfold, h1]
  dsimp only
  unfold resolve_property
  rw [hb]
  dsimp only
  refine ⟨?_, ?_⟩
  · intro hj
    rw [hj]
  · intro v hj hno
    rw [hj]
    cases v with
    | obj flds => exact absurd rfl (hno flds)
    | null => rfl
    | bool b => rfl
    | num n => rfl
    | str s => rfl
    | arr xs => rfl

def c5_entry_bad : Target :=
  ⟨"bad", .error ()⟩

def c5_entry_arr : Target :=
  ⟨"arr", .ok (.arr [.num 1, .num 2])⟩

def c5_opts : FieldOptions :=
  ⟨none, none, [c5_entry_bad, c5_entry_arr]⟩

def c5_field : FieldDescriptor :=
  .mk "invalid_json" 1 (.singular .string) (some c5_opts) none

/-- C5 witness: an override whose text fails to parse and one whose text
parses to an array, each requested as the active target. -/
theorem target_json_failure_drops_property_witness :
    (c5_field.options = some c5_opts ∧
     c5_opts.target.find? (fun t => t.label == "bad") = some c5_entry_bad ∧
     compile_field ⟨some "bad"⟩ "M" c5_field "t.proto" =
       (none, [(Diagnostic.error
         (.invalidTargetJson "M" c5_field.name c5_entry_bad.label)).atLoc
           ⟨"t.proto", c5_field.span⟩])) ∧
    (c5_opts.target.find? (fun t => t.label == "arr") = some c5_entry_arr ∧
     compile_field ⟨some "arr"⟩ "M" c5_field "t.proto" =
       (none, [(Diagnostic.error
         (.invalidTargetJsonType "M" c5_field.name c5_entry_arr.label)).atLoc
           ⟨"t.proto", c5_field.span⟩])) :=
  ⟨⟨rfl, rfl,
    (target_json_failure_drops_property ⟨some "bad"⟩ "M" "t.proto" c5_field
      c5_opts "bad" c5_entry_bad rfl rfl rfl).1 rfl⟩,
   ⟨rfl,
    (target_json_failure_drops_property ⟨some "arr"⟩ "M" "t.proto" c5_field
      c5_opts "arr" c5_entry_arr rfl rfl rfl).2 (.arr [.num 1, .num 2]) rfl
      (by intro flds hcon; cases hcon)⟩⟩

/-- C6: when a target label is active but matches none of the field's
declared overrides, a field that declares at least one override gets an
UnknownTarget warning prepended to its sub-compilation diagnostics and still
produces its default-rule property; a field declaring no overrides produces
the default-rule property with no additional diagnostic. -/
theorem unknown_target_warning (ctx : CompileCtx) (msgName file : String)
    (f : FieldDescriptor) (opts : FieldOptions) (label : String)
    (h1 : f.options = some opts) (h2 : ctx.target = some label)
    (h3 : opts.target.find? (fun t => t.label == label) = none) :
    (opts.target ≠ [] →
      compile_field ctx msgName f file =
        (some (property_name f opts,
           reclassify (property f opts) (sub_compile ctx f file).1),
         (Diagnostic.warning (.unknownTarget msgName f.name label)).atLoc
           ⟨file, f.span⟩ :: (sub_compile ctx f file).2)) ∧
    (opts.target = [] →
      compile_field ctx msgName f file =
        (some (property_name f opts,
           reclassify (property f opts) (sub_compile ctx f file).1),
         (sub_compile ctx f file).2)) := by
  have hb : ctx.target.bind
      (fun label => opts.target.find? (fun t => t.label == label)) = none := by
    rw [h2]
    exact h3
  rw [compile_field_unfold, h1]
  dsimp only
  unfold resolve_property
  rw [hb, h2]
  dsimp only
  refine ⟨?_, ?_⟩
  · intro hne
    have hemp : opts.target.isEmpty = false := by
      cases hl : opts.target with
      | nil => exact absurd hl hne
      | cons a as => rfl
    rw [hemp]
    rfl
  · intro hnil
    have hemp : opts.target.isEmpty = true := by
      rw [hnil]
      rfl
    rw [hemp]
    rfl

def c6_opts_with : FieldOptions :=
  ⟨none, none, [⟨"foo", .ok (.obj [(("type" : String), .str "text")])⟩]⟩

def c6_field_with : FieldDescriptor :=
  .mk "output_target" 1 (.singular .string) (some c6_opts_with) none

def c6_opts_none : FieldOptions :=
  ⟨none, none, []⟩

def c6_field_none : FieldDescriptor :=
  .mk "plain" 2 (.singular .i64) (some c6_opts_none) none

/-- C6 witness: requesting label bar against a field with a foo override
(warning and default property) and against a field with no overrides
(silent default property). -/
theorem unknown_target_warning_witness :
    (c6_opts_with.target ≠ [] ∧
     compile_field ⟨some "bar"⟩ "FieldTestCase" c6_field_with "t.proto" =
       (some (property_name c6_field_with c6_opts_with,
          reclassify (property c6_field_with c6_opts_with)
            (sub_compile ⟨some "bar"⟩ c6_field_with "t.proto").1),
        (Diagnostic.warning
          (.unknownTarget "FieldTestCase" c6_field_with.name "bar")).atLoc
            ⟨"t.proto", c6_field_with.span⟩
          :: (sub_compile ⟨some "bar"⟩ c6_field_with "t.proto").2)) ∧
    (c6_opts_none.target = [] ∧
     compile_field ⟨some "bar"⟩ "FieldTestCase" c6_field_none "t.proto" =
       (some (property_name c6_field_none c6_opts_none,
          reclassify (property c6_field_none c6_opts_none)
            (sub_compile ⟨some "bar"⟩ c6_field_none "t.proto").1),
        (sub_compile ⟨some "bar"⟩ c6_field_none "t.proto").2)) :=
  ⟨⟨by simp [c6_opts_with],
    (unknown_target_warning ⟨some "bar"⟩ "FieldTestCase" "t.proto" c6_field_with
      c6_opts_with "bar" rfl rfl rfl).1 (by simp [c6_opts_with])⟩,
   ⟨rfl,
    (unknown_target_warning ⟨some "bar"⟩ "FieldTestCase" "t.proto" c6_field_none
      c6_opts_none "bar" rfl rfl rfl).2 rfl⟩⟩

/-- C8: span reconstruction converts the 0-based recorded positions to
1-based points (a 3-element recorded span yields start and end on the same
line, a 4-element one carries its own end line), and Span.from_field returns
none — not an error — when the source-code-info table is absent, when the
field's sibling index cannot be found, or when no recorded entry matches the
rebuilt path. -/
theorem span_points_one_based_and_none_cases :
    (∀ l c1 c2 : Int, 0 ≤ l → l < 2147483648 → 0 ≤ c1 → c1 < 2147483648 →
      0 ≤ c2 → c2 < 2147483648 →
      Span.from_proto [l, c1, c2] =
        some ⟨⟨l.toNat + 1, c1.toNat + 1⟩, ⟨l.toNat + 1, c2.toNat + 1⟩⟩) ∧
    (∀ l1 c1 l2 c2 : Int, 0 ≤ l1 → l1 < 2147483648 → 0 ≤ c1 → c1 < 2147483648 →
      0 ≤ l2 → l2 < 2147483648 → 0 ≤ c2 → c2 < 2147483648 →
      Span.from_proto [l1, c1, l2, c2] =
        some ⟨⟨l1.toNat + 1, c1.toNat + 1⟩, ⟨l2.toNat + 1, c2.toNat + 1⟩⟩) ∧
    (∀ (file : FileProto) (chain : List MsgProto) (m : MsgProto) (f : FieldProto),
      file.sourceCodeInfo = none → Span.from_field file chain m f = none) ∧
    (∀ (file : FileProto) (chain : List MsgProto) (m : MsgProto) (f : FieldProto),
      m.fields.findIdx? (fun g => g.number == f.number) = none →
      Span.from_field file chain m f = none) ∧
    (∀ (file : FileProto) (chain : List MsgProto) (m : MsgProto) (f : FieldProto)
       (sci : List LocationRec), file.sourceCodeInfo = some sci →
      (∀ p idx, message_path file chain m = some p →
        m.fields.findIdx? (fun g => g.number == f.number) = some idx →
        sci.find? (fun l => l.path == p ++ [2, (idx : Int)]) = none) →
      Span.from_field file chain m f = none) := by
  refine ⟨?_, ?_, ?_, ?_, ?_⟩
  · intro l c1 c2 hl0 hl1 hc10 hc11 hc20 hc21
    simp only [Span.from_proto, toU32, u32add]
    have el : l % 4294967296 = l := Int.emod_eq_of_lt hl0 (by omega)
    have ec1 : c1 % 4294967296 = c1 := Int.emod_eq_of_lt hc10 (by omega)
    have ec2 : c2 % 4294967296 = c2 := Int.emod_eq_of_lt hc20 (by omega)
    rw [el, ec1, ec2]
    have hln : l.toNat < 2147483648 := by omega
    have hc1n : c1.toNat < 2147483648 := by omega
    have hc2n : c2.toNat < 2147483648 := by omega
    rw [Nat.mod_eq_of_lt (by omega), Nat.mod_eq_of_lt (by omega),
        Nat.mod_eq_of_lt (by omega)]
  · intro l1 c1 l2 c2 h10 h11 hc10 hc11 h20 h21 hc20 hc21
    simp only [Span.from_proto, toU32, u32add]
    have e1 : l1 % 4294967296 = l1 := Int.emod_eq_of_lt h10 (by omega)
    have ec1 : c1 % 4294967296 = c1 := Int.emod_eq_of_lt hc10 (by omega)
    have e2 : l2 % 4294967296 = l2 := Int.emod_eq_of_lt h20 (by omega)
    have ec2 : c2 % 4294967296 = c2 := Int.emod_eq_of_lt hc20 (by omega)
    rw [e1, ec1, e2, ec2]
    rw [Nat.mod_eq_of_lt (by omega), Nat.mod_eq_of_lt (by omega),
        Nat.mod_eq_of_lt (by omega), Nat.mod_eq_of_lt (by omega)]
  · intro file chain m f h
    unfold Span.from_field
    cases hmp : message_path file chain m with
    | none => rfl
    | some p =>
        cases hidx : m.fields.findIdx? (fun g => g.number == f.number) with
        | none => rfl
        | some idx => rw [h]; rfl
  · intro file chain m f h
    unfold Span.from_field
    cases hmp : message_path file chain m with
    | none => rfl
    | some p => rw [h]; rfl
  · intro file chain m f sci hsci hfind
    unfold Span.from_field
    cases hmp : message_path file chain m with
    | none => rfl
    | some p =>
        cases hidx : m.fields.findIdx? (fun g => g.number == f.number) with
        | none => rfl
        | some idx =>
            rw [hsci]
            simp [hfind p idx hmp hidx]

def c8_msg : MsgProto :=
  .mk "tests.M" [⟨"f", 1⟩, ⟨"g", 7⟩] []

def c8_file : FileProto :=
  ⟨[c8_msg], some [⟨[4, 0, 2, 0], [2, 4, 20]⟩]⟩

def c8_file_nosci : FileProto :=
  ⟨[c8_msg], none⟩

/-- C8 witness: a concrete three-element recorded span converts 0-based to
1-based on one line; a file without source info, a field with an unknown
number, and a path with no table entry each give none. -/
theorem span_points_one_based_and_none_cases_witness :
    (Span.from_proto [2, 4, 20] = some ⟨⟨3, 5⟩, ⟨3, 21⟩⟩) ∧
    (Span.from_proto [2, 4, 3, 1] = some ⟨⟨3, 5⟩, ⟨4, 2⟩⟩) ∧
    (Span.from_field c8_file_nosci [] c8_msg ⟨"f", 1⟩ = none) ∧
    (c8_msg.fields.findIdx? (fun g => g.number == (9 : Int)) = none ∧
      Span.from_field c8_file [] c8_msg ⟨"h", 9⟩ = none) ∧
    (Span.from_field c8_file [] c8_msg ⟨"g", 7⟩ = none) ∧
    (Span.from_field c8_file [] c8_msg ⟨"f", 1⟩ = some ⟨⟨3, 5⟩, ⟨3, 21⟩⟩) :=
  ⟨span_points_one_based_and_none_cases.1 2 4 20 (by decide) (by decide)
      (by decide) (by decide) (by decide) (by decide),
   span_points_one_based_and_none_cases.2.1 2 4 3 1 (by decide) (by decide)
      (by decide) (by decide) (by decide) (by decide) (by decide) (by decide),
   span_points_one_based_and_none_cases.2.2.1 c8_file_nosci [] c8_msg ⟨"f", 1⟩ rfl,
   ⟨rfl, span_points_one_based_and_none_cases.2.2.2.1 c8_file [] c8_msg ⟨"h", 9⟩ rfl⟩,
   span_points_one_based_and_none_cases.2.2.2.2 c8_file [] c8_msg ⟨"g", 7⟩
     [⟨[4, 0, 2, 0], [2, 4, 20]⟩] rfl (by intro p idx hp hidx; cases hp; cases hidx; rfl),
   rfl⟩

theorem isEmpty_false_iff {α : Type} (l : List α) : l.isEmpty = false ↔ l ≠ [] := by
  cases l <;> simp

theorem any_false_iff {α : Type} (p : α → Bool) (l : List α) :
    l.any p = false ↔ ∀ x ∈ l, p x = false := by
  induction l with
  | nil => simp
  | cons a as ih => simp [List.any_cons, ih]

/-- C2: per message, process emits the output entry named
full-name `.json` holding the serialized mapping exactly when the compiled
mapping is non-empty (a property or message-level index options) and none of
that message's diagnostics is an Error; the response over a file is the
per-message outputs concatenated, so one message's Error suppresses only its
own entry, and Warnings (non-Error diagnostics) never suppress emission. -/
theorem emission_gated_per_message :
    (∀ (ctx : Context) (filename : String) (m : MessageDescriptor),
      (process_message ctx filename m).1 =
        (if (!(compile_message ⟨ctx.target⟩ m filename).1.properties.isEmpty
             || (compile_message ⟨ctx.target⟩ m filename).1.index.isSome)
            && !((process_message ctx filename m).2.any Diagnostic.is_error)
         then some (m.fullName ++ ".json",
                render_json (serialize_mapping (compile_message ⟨ctx.target⟩ m filename).1))
         else none)) ∧
    (∀ (ctx : Context) (filename : String) (m : MessageDescriptor),
      ((process_message ctx filename m).1.isSome = true ↔
        (((compile_message ⟨ctx.target⟩ m filename).1.properties ≠ [] ∨
          (compile_message ⟨ctx.target⟩ m filename).1.index.isSome = true) ∧
         ∀ d ∈ (process_message ctx filename m).2, d.is_error = false))) ∧
    (∀ (ctx : Context) (filename : String) (ms : List MessageDescriptor),
      process_messages ctx filename ms =
        (ms.filterMap (fun m => (process_message ctx filename m).1),
         (ms.map (fun m => (process_message ctx filename m).2)).flatten)) := by
  have hmsg : ∀ (ctx : Context) (filename : String) (m : MessageDescriptor),
      (process_message ctx filename m).1 =
        (if (!(compile_message ⟨ctx.target⟩ m filename).1.properties.isEmpty
             || (compile_message ⟨ctx.target⟩ m filename).1.index.isSome)
            && !((process_message ctx filename m).2.any Diagnostic.is_error)
         then some (m.fullName ++ ".json",
                render_json (serialize_mapping (compile_message ⟨ctx.target⟩ m filename).1))
         else none) := by
    intro ctx filename m
    rfl
  refine ⟨hmsg, ?_, ?_⟩
  · intro ctx filename m
    rw [hmsg]
    split
    next hcond =>
      simp only [Option.isSome_some, true_iff]
      rw [Bool.and_eq_true, Bool.or_eq_true, Bool.not_eq_true',
        Bool.not_eq_true'] at hcond
      obtain ⟨h1, h2⟩ := hcond
      constructor
      · rcases h1 with h1 | h1
        · exact Or.inl ((isEmpty_false_iff _).mp h1)
        · exact Or.inr h1
      · intro d hd
        exact (any_false_iff _ _).mp h2 d hd
    next hcond =>
      simp only [Option.isSome_none, Bool.false_eq_true, false_iff]
      rintro ⟨h1, h2⟩
      apply hcond
      rw [Bool.and_eq_true, Bool.or_eq_true, Bool.not_eq_true',
        Bool.not_eq_true']
      constructor
      · rcases h1 with h1 | h1
        · exact Or.inl ((isEmpty_false_iff _).mpr h1)
        · exact Or.inr h1
      · exact (any_false_iff _ _).mpr h2
  · intro ctx filename ms
    induction ms with
    | nil => rfl
    | cons m rest ih =>
        simp only [process_messages, ih, List.filterMap_cons, List.map_cons,
          List.flatten_cons]
        cases h : (process_message ctx filename m).1 <;> simp [h]

def c2_err_fm : FieldMapping :=
  ⟨some "keyword", some 0, none, none⟩

def c2_err_field : FieldDescriptor :=
  .mk "zero" 1 (.singular .string) (some ⟨none, some c2_err_fm, []⟩) none

def c2_err_msg : MessageDescriptor :=
  .mk "Bad" "tests.Bad" [c2_err_field] none

def c2_ok_field : FieldDescriptor :=
  .mk "title" 1 (.singular .string) (some ⟨none, none, []⟩) none

def c2_ok_msg : MessageDescriptor :=
  .mk "Good" "tests.Good" [c2_ok_field] none

def c2_ctx : Context :=
  ⟨["t.proto"], [⟨"t.proto", [c2_err_msg, c2_ok_msg]⟩], none⟩

/-- C2 witness: a message whose ignore_above of 0 produces an Error emits no
entry, while its sibling message in the same run still emits its own. -/
theorem emission_gated_per_message_witness :
    (process_message c2_ctx "t.proto" c2_err_msg).1 = none ∧
    ((process_message c2_ctx "t.proto" c2_err_msg).2.any Diagnostic.is_error = true) ∧
    (process_message c2_ctx "t.proto" c2_ok_msg).1 =
      some ("tests.Good.json",
        "\x7b\"properties\":\x7b\"title\":\x7b\"type\":\"keyword\"\x7d\x7d\x7d") ∧
    process_messages c2_ctx "t.proto" [c2_err_msg, c2_ok_msg] =
      ([("tests.Good.json",
         "\x7b\"properties\":\x7b\"title\":\x7b\"type\":\"keyword\"\x7d\x7d\x7d")],
       (process_message c2_ctx "t.proto" c2_err_msg).2 ++
         (process_message c2_ctx "t.proto" c2_ok_msg).2) := by
  refine ⟨?_, rfl, ?_, ?_⟩
  · rw [emission_gated_per_message.1 c2_ctx "t.proto" c2_err_msg]
    rfl
  · rw [emission_gated_per_message.1 c2_ctx "t.proto" c2_ok_msg]
    rfl
  · rw [emission_gated_per_message.2.2 c2_ctx "t.proto" [c2_err_msg, c2_ok_msg]]
    rfl

/-- C9: process is a pure function of the request, so running it twice on the
same descriptor set and parameter string yields identical response entries
(byte-identical rendered JSON contents) and the same multiset of
diagnostics. -/
theorem process_deterministic (request : CodeGeneratorRequest)
    (r1 r2 : List (String × String) × List Diagnostic)
    (h1 : process request = .ok r1) (h2 : process request = .ok r2) :
    r1.1 = r2.1 ∧ (r1.2 : Multiset Diagnostic) = (r2.2 : Multiset Diagnostic) := by
  rw [h1] at h2
  injection h2 with h2
  subst h2
  exact ⟨rfl, rfl⟩

def c9_request : CodeGeneratorRequest :=
  ⟨["t.proto"], "", [⟨"t.proto", [.mk "M" "tests.M"
    [.mk "title" 1 (.singular .string) (some ⟨none, none, []⟩) none] none]⟩]⟩

def c9_result : List (String × String) × List Diagnostic :=
  ([("tests.M.json",
     "\x7b\"properties\":\x7b\"title\":\x7b\"type\":\"keyword\"\x7d\x7d\x7d")], [])

/-- C9 witness: a concrete successful run, processed twice. -/
theorem process_deterministic_witness :
    process c9_request = .ok c9_result ∧
    (c9_result.1 = c9_result.1 ∧
     (c9_result.2 : Multiset Diagnostic) = (c9_result.2 : Multiset Diagnostic)) :=
  ⟨rfl, process_deterministic c9_request c9_result c9_result rfl rfl⟩

theorem mem_insertSorted {α : Type} (k : String) (v : α) (l : List (String × α))
    (x : String × α) (hx : x ∈ insertSorted k v l) : x.1 = k ∨ x ∈ l := by
  induction l with
  | nil =>
      simp [insertSorted] at hx
      subst hx
      exact Or.inl rfl
  | cons kv rest ih =>
      obtain ⟨k2, v2⟩ := kv
      by_cases h1 : strLt k k2 = true
      · simp only [insertSorted, if_pos h1] at hx
        rcases List.mem_cons.mp hx with h | h
        · subst h
          exact Or.inl rfl
        · exact Or.inr h
      · by_cases h2 : k = k2
        · simp only [insertSorted, if_neg h1, beq_iff_eq, if_pos h2] at hx
          rcases List.mem_cons.mp hx with h | h
          · subst h
            exact Or.inl rfl
          · exact Or.inr (List.mem_cons_of_mem _ h)
        · simp only [insertSorted, if_neg h1, beq_iff_eq, if_neg h2] at hx
          rcases List.mem_cons.mp hx with h | h
          · subst h
            exact Or.inr (List.mem_cons_self _ _)
          · rcases ih h with h3 | h3
            · exact Or.inl h3
            · exact Or.inr (List.mem_cons_of_mem _ h3)

theorem insertSorted_sorted {α : Type} (k : String) (v : α) (l : List (String × α))
    (h : l.Pairwise (fun a b => strLt a.1 b.1 = true)) :
    (insertSorted k v l).Pairwise (fun a b => strLt a.1 b.1 = true) := by
  induction l with
  | nil => simp [insertSorted]
  | cons kv rest ih =>
      obtain ⟨k2, v2⟩ := kv
      rw [List.pairwise_cons] at h
      obtain ⟨hhead, htail⟩ := h
      by_cases h1 : strLt k k2 = true
      · simp only [insertSorted, if_pos h1]
        rw [List.pairwise_cons]
        constructor
        · intro y hy
          rcases List.mem_cons.mp hy with h | h
          · subst h
            exact h1
          · exact strLt_trans k k2 y.1 h1 (hhead y h)
        · exact List.pairwise_cons.mpr ⟨hhead, htail⟩
      · by_cases h2 : k = k2
        · simp only [insertSorted, if_neg h1, beq_iff_eq, if_pos h2]
          rw [List.pairwise_cons]
          exact ⟨fun y hy => h2 ▸ hhead y hy, htail⟩
        · simp only [insertSorted, if_neg h1, beq_iff_eq, if_neg h2]
          rw [List.pairwise_cons]
          constructor
          · intro y hy
            rcases mem_insertSorted k v rest y hy with h3 | h3
            · rw [h3]
              exact strLt_conn k k2 (Bool.not_eq_true _ ▸ h1)
                (beq_eq_false_iff_ne.mpr h2)
            · exact hhead y h3
          · exact ih htail

theorem compile_fields_sorted (ctx : CompileCtx) (msgName file : String) :
    ∀ (fs : List FieldDescriptor) (acc : List (String × Property)),
      acc.Pairwise (fun a b => strLt a.1 b.1 = true) →
      ((compile_fields ctx msgName fs file acc).1).Pairwise
        (fun a b => strLt a.1 b.1 = true) := by
  intro fs
  induction fs with
  | nil =>
      intro acc h
      simpa [compile_fields] using h
  | cons f rest ih =>
      intro acc h
      simp only [compile_fields]
      cases hr : (compile_field ctx msgName f file).1 with
      | none =>
          exact ih acc h
      | some np =>
          obtain ⟨n, p⟩ := np
          exact ih _ (insertSorted_sorted n p acc h)

theorem compile_message_sorted (ctx : CompileCtx) (m : MessageDescriptor)
    (file : String) :
    ((compile_message ctx m file).1.properties).Pairwise
      (fun a b => strLt a.1 b.1 = true) := by
  cases m with
  | mk name fullName fields index =>
      simp only [compile_message]
      dsimp only [Mapping.properties]
      exact compile_fields_sorted ctx name file fields [] (by simp)

theorem serialize_properties_keys (l : List (String × Property)) :
    (serialize_properties l).map Prod.fst = l.map Prod.fst := by
  induction l with
  | nil => rfl
  | cons np rest ih =>
      obtain ⟨n, p⟩ := np
      simp only [serialize_properties, List.map_cons, ih]

theorem lookupKey_eq_none {α : Type} (k : String) (l : List (String × α))
    (h : containsKey k l = false) : lookupKey k l = none := by
  induction l with
  | nil => rfl
  | cons kv rest ih =>
      rw [containsKey, List.any_cons, Bool.or_eq_false_iff] at h
      obtain ⟨h1, h2⟩ := h
      simp only [lookupKey, List.find?_cons, h1]
      exact ih h2

/-- C10: the serialized JSON of a compiled mapping has a properties key
exactly when the mapping has at least one property (a mapping holding only
message-level index options serializes without one, given that the index
options' own keys — drawn from a fixed proto schema — do not use the
reserved properties name), and the entries under properties carry the
property names in ascending lexicographic order (the BTreeMap order), not
field declaration order. -/
theorem serialized_properties_key_and_order (ctx : CompileCtx)
    (m : MessageDescriptor) (file : String)
    (hidx : containsKey "properties"
      ((compile_message ctx m file).1.index.getD []) = false) :
    ∃ fs, serialize_mapping (compile_message ctx m file).1 = .obj fs ∧
      (containsKey "properties" fs = true ↔
        (compile_message ctx m file).1.properties ≠ []) ∧
      (∀ pfs, lookupKey "properties" fs = some (.obj pfs) →
        pfs.map Prod.fst = (compile_message ctx m file).1.properties.map Prod.fst ∧
        (pfs.map Prod.fst).Pairwise (fun a b : String => strLt a b = true)) := by
  have hbase : containsKey "properties"
      (((compile_message ctx m file).1.index.getD []).foldl
        (fun acc kv => insertSorted kv.1 kv.2 acc) []) = false := by
    rw [containsKey_foldl_insertSorted]
    rw [show (((compile_message ctx m file).1.index.getD []).any
      (fun kv => kv.1 == "properties")) =
        containsKey "properties" ((compile_message ctx m file).1.index.getD [])
      from rfl]
    rw [hidx]
    rfl
  have hsorted := compile_message_sorted ctx m file
  cases hP : (compile_message ctx m file).1.properties with
  | nil =>
      refine ⟨((compile_message ctx m file).1.index.getD []).foldl
        (fun acc kv => insertSorted kv.1 kv.2 acc) [], ?_, ?_, ?_⟩
      · unfold serialize_mapping
        dsimp only
        rw [hP]
        rfl
      · rw [hbase]
        simp
      · intro pfs hpfs
        rw [lookupKey_eq_none _ _ hbase] at hpfs
        cases hpfs
  | cons x xs =>
      refine ⟨insertSorted "properties" (.obj (serialize_properties (x :: xs)))
        (((compile_message ctx m file).1.index.getD []).foldl
          (fun acc kv => insertSorted kv.1 kv.2 acc) []), ?_, ?_, ?_⟩
      · unfold serialize_mapping
        dsimp only
        rw [hP]
        rfl
      · rw [containsKey_insertSorted]
        simp
      · intro pfs hpfs
        rw [lookupKey_insertSorted_self] at hpfs
        injection hpfs with hpfs
        injection hpfs with hpfs
        constructor
        · rw [← hpfs, serialize_properties_keys]
        · rw [← hpfs, serialize_properties_keys]
          rw [hP] at hsorted
          rw [List.pairwise_map]
          exact hsorted

def c10_fb : FieldDescriptor :=
  .mk "b" 1 (.singular .string) (some ⟨none, none, []⟩) none

def c10_fa : FieldDescriptor :=
  .mk "a" 2 (.singular .i64) (some ⟨none, none, []⟩) none

def c10_msg : MessageDescriptor :=
  .mk "M" "tests.M" [c10_fb, c10_fa] none

/-- C10 witness: a message declaring field b before field a serializes its
properties in ascending name order a then b, not declaration order. -/
theorem serialized_properties_key_and_order_witness :
    containsKey "properties"
      ((compile_message ⟨none⟩ c10_msg "t.proto").1.index.getD []) = false ∧
    (∃ fs, serialize_mapping (compile_message ⟨none⟩ c10_msg "t.proto").1 = .obj fs ∧
      (containsKey "properties" fs = true ↔
        (compile_message ⟨none⟩ c10_msg "t.proto").1.properties ≠ []) ∧
      (∀ pfs, lookupKey "properties" fs = some (.obj pfs) →
        pfs.map Prod.fst =
          (compile_message ⟨none⟩ c10_msg "t.proto").1.properties.map Prod.fst ∧
        (pfs.map Prod.fst).Pairwise (fun a b : String => strLt a b = true))) ∧
    render_json (serialize_mapping (compile_message ⟨none⟩ c10_msg "t.proto").1) =
      "\x7b\"properties\":\x7b\"a\":\x7b\"type\":\"long\"\x7d,\"b\":\x7b\"type\":\"keyword\"\x7d\x7d\x7d" ∧
    (compile_message ⟨none⟩ c10_msg "t.proto").1.properties.map Prod.fst =
      ["a", "b"] ∧
    c10_msg.fields.map FieldDescriptor.name = ["b", "a"] :=
  ⟨rfl, serialized_properties_key_and_order ⟨none⟩ c10_msg "t.proto" rfl,
   by rfl, by rfl, rfl⟩
